import Mathlib

/-!
Shallow embedding of the `annotate` metadata/reflection library
(`src/lib/metadata.ts`, `src/lib/reflector.ts`, `src/lib/factories.ts`).

Modelling conventions:
* JS objects that can carry metadata (class constructors and prototype
  objects) are identified by natural-number ids.
* The external reflect-metadata store is a function from
  (metadata key, owner id, optional member name) to an optional stored value.
  Metadata keys are minted symbols; we model them as naturals.
* A JS property slot (as seen through `Object.getOwnPropertyDescriptor`) is
  either a data property holding a callable (`fn`), a data property holding a
  non-callable value (`data`, with `none` standing for `undefined`), or an
  accessor pair.  `φ` is the type of JS function values, `ν` of other values.
* Decorator factory arguments are lists of `ν`; a possibly-`undefined` JS
  value is an `Option ν` (`none` = `undefined`), so metadata arrays produced
  by the factory layer are lists of `Option ν`.
-/

set_option maxHeartbeats 1000000

namespace Annotate

/-- A JS property slot as observed via `Object.getOwnPropertyDescriptor`. -/
inductive Slot (φ ν : Type) where
  | fn (f : φ)
  | data (v : Option ν)
  | accessor (g s : Option φ)
deriving DecidableEq

/-- The JS test `desc && typeof desc.value === "function"` on an optional
descriptor (`none` = descriptor absent). -/
def descIsFn {φ ν : Type} : Option (Slot φ ν) → Bool
  | some (.fn _) => true
  | _ => false

/-- A value held by the reflect-metadata store at one address: either a
metadata array, or a parameter-index map (a JS `Map`, modelled as an
insertion-ordered association list). -/
inductive StoredVal (μ : Type) where
  | arr (l : List μ)
  | pmap (m : List (Nat × List μ))
deriving DecidableEq

/-- The external reflect-metadata store:
metadata key → owner object id → optional member name → stored value.
`none` means nothing was ever defined at that address. -/
def Store (μ : Type) := Nat → Nat → Option String → Option (StoredVal μ)

/-- A store with no metadata anywhere. -/
def Store.empty {μ : Type} : Store μ := fun _ _ _ => none

/-- `Reflect.defineMetadata(key, value, owner, member)`: overwrites, never
merges (metadata.ts `defineMetadata`). -/
def Store.set {μ : Type} (s : Store μ) (k o : Nat) (m : Option String) (v : StoredVal μ) :
    Store μ :=
  fun k' o' m' => if k' = k ∧ o' = o ∧ m' = m then some v else s k' o' m'

/-- metadata.ts `getOwnMetadata`: fetch the value defined directly on the
owner, no prototype-chain fallback. -/
def getOwnMetadata {μ : Type} (s : Store μ) (k o : Nat) (m : Option String) :
    Option (StoredVal μ) :=
  s k o m

/-- metadata.ts `getMetadataArray`: `getOwnMetadata(...) ?? []`, with the
result used as an array.  A stored parameter map at the same address is
impossible through the public API (keys are minted fresh per factory and each
factory writes a single shape); in that unreachable case the JS code would
return a non-array whose `.length` is `undefined`, so every `length > 0`
check fails — we model it as the empty array. -/
def getMetadataArray {μ : Type} (s : Store μ) (k o : Nat) (m : Option String) : List μ :=
  match getOwnMetadata s k o m with
  | some (.arr l) => l
  | _ => []

/-- metadata.ts `getParameterMap` (`getOwnMetadata(...) ?? new Map()`)
combined with the reflector's `instanceof Map` guard: `some` when the JS
value would pass `instanceof Map` (an absent entry defaults to a fresh empty
`Map`, which passes), `none` when a non-map value is stored there. -/
def getParameterMap {μ : Type} (s : Store μ) (k o : Nat) (m : Option String) :
    Option (List (Nat × List μ)) :=
  match getOwnMetadata s k o m with
  | some (.pmap mp) => some mp
  | some (.arr _) => none
  | none => some []

/-- metadata.ts `appendMetadata`: read the current array, push `value`,
define the result back. -/
def appendMetadata {μ : Type} (s : Store μ) (k o : Nat) (m : Option String) (v : μ) :
    Store μ :=
  s.set k o m (.arr (getMetadataArray s k o m ++ [v]))

/-- One level of a prototype chain: the prototype object's id (for metadata
addressing) and its own properties in enumeration order. -/
structure Level (φ ν : Type) where
  oid : Nat
  props : List (String × Slot φ ν)

/-- The static shape of a class as the Reflector sees it: the constructor
object (id + own static properties) and the prototype chain, from the class's
own prototype down to the last level before `Object.prototype`. -/
structure ClassShape (φ ν : Type) where
  ctorId : Nat
  statics : List (String × Slot φ ν)
  chain : List (Level φ ν)

/-- reflector.ts `getOwnKeys`: own property names minus the two reserved
names `"constructor"` and `"prototype"`. -/
def getOwnKeys {φ ν : Type} (props : List (String × Slot φ ν)) : List String :=
  (props.map Prod.fst).filter fun n => n ≠ "constructor" && n ≠ "prototype"

/-- `Object.getOwnPropertyDescriptor(target, name)` over the modelled own
properties (first binding wins, as JS property tables have unique keys). -/
def lookupSlot {φ ν : Type} (props : List (String × Slot φ ν)) (n : String) :
    Option (Slot φ ν) :=
  (props.find? fun p => p.1 = n).map Prod.snd

/-- reflector.ts `getKeysWithTarget`: walk the prototype chain, yielding each
level's own keys paired with that level. -/
def keysWithTarget {φ ν : Type} : List (Level φ ν) → List (Level φ ν × String)
  | [] => []
  | lv :: rest => ((getOwnKeys lv.props).map fun n => (lv, n)) ++ keysWithTarget rest

/-- The normalized query result (`DecoratedItem` in types.ts): the tagged
union over class / method / property / parameter items.  A class item's
target is the constructor's id; a method item's target is the callable found
in the winning descriptor. -/
inductive Item (φ μ : Type) where
  | cls (name : String) (metadata : List μ) (targetId : Nat)
  | method (name : String) (metadata : List μ) (target : φ)
  | prop (name : String) (metadata : List μ)
  | param (name : String) (metadata : List μ) (parameterIndex : Nat)
deriving DecidableEq

/-- The `name` field common to all `DecoratedItem` variants. -/
def Item.name {φ μ : Type} : Item φ μ → String
  | .cls n _ _ => n
  | .method n _ _ => n
  | .prop n _ => n
  | .param n _ _ => n

/-- The `metadata` field common to all `DecoratedItem` variants. -/
def Item.metadata {φ μ : Type} : Item φ μ → List μ
  | .cls _ md _ => md
  | .method _ md _ => md
  | .prop _ md => md
  | .param _ md _ => md

namespace Reflector

/-- The instance-method loop of `Reflector.methods`: iterate the
(level, name) pairs of the prototype-chain walk, skipping names already
`seen`, keeping names whose descriptor at that level is a callable data
property with a non-empty own metadata array.  Note that `seen` is extended
only when an item is actually produced. -/
def methodsAux {φ ν μ : Type} (s : Store μ) (k : Nat) :
    List (Level φ ν × String) → List String → List (Item φ μ)
  | [], _ => []
  | (lv, n) :: rest, seen =>
    if n ∈ seen then methodsAux s k rest seen
    else
      match lookupSlot lv.props n with
      | some (.fn f) =>
        let md := getMetadataArray s k lv.oid (some n)
        if md.length > 0 then .method n md f :: methodsAux s k rest (n :: seen)
        else methodsAux s k rest seen
      | _ => methodsAux s k rest seen

/-- The static-method loop of `Reflector.methods`: the constructor's own keys
only, no prototype walk and no deduplication against instance results. -/
def staticMethods {φ ν μ : Type} (s : Store μ) (k : Nat) (c : ClassShape φ ν) :
    List (Item φ μ) :=
  (getOwnKeys c.statics).filterMap fun n =>
    match lookupSlot c.statics n with
    | some (.fn f) =>
      let md := getMetadataArray s k c.ctorId (some n)
      if md.length > 0 then some (.method n md f) else none
    | _ => none

/-- `Reflector.methods`: instance methods from the prototype-chain walk,
then static methods. -/
def methods {φ ν μ : Type} (s : Store μ) (k : Nat) (c : ClassShape φ ν) :
    List (Item φ μ) :=
  methodsAux s k (keysWithTarget c.chain) [] ++ staticMethods s k c

/-- The instance-property loop of `Reflector.properties`: same walk and
shadowing machinery as `methodsAux`, but skipping names whose descriptor is a
callable data property (those are methods). -/
def propertiesAux {φ ν μ : Type} (s : Store μ) (k : Nat) :
    List (Level φ ν × String) → List String → List (Item φ μ)
  | [], _ => []
  | (lv, n) :: rest, seen =>
    if n ∈ seen then propertiesAux s k rest seen
    else if descIsFn (lookupSlot lv.props n) then propertiesAux s k rest seen
    else
      let md := getMetadataArray s k lv.oid (some n)
      if md.length > 0 then .prop n md :: propertiesAux s k rest (n :: seen)
      else propertiesAux s k rest seen

/-- The static-property loop of `Reflector.properties`. -/
def staticProperties {φ ν μ : Type} (s : Store μ) (k : Nat) (c : ClassShape φ ν) :
    List (Item φ μ) :=
  (getOwnKeys c.statics).filterMap fun n =>
    if descIsFn (lookupSlot c.statics n) then none
    else
      let md := getMetadataArray s k c.ctorId (some n)
      if md.length > 0 then some (.prop n md) else none

/-- `Reflector.properties`: instance properties from the prototype-chain
walk, then static properties. -/
def properties {φ ν μ : Type} (s : Store μ) (k : Nat) (c : ClassShape φ ν) :
    List (Item φ μ) :=
  propertiesAux s k (keysWithTarget c.chain) [] ++ staticProperties s k c

/-- `Reflector.class`: the class's own metadata array for `key`; a
single-element list when non-empty, else empty.  Reads only the constructor's
own address — no ancestor walk. -/
def classQuery {φ ν μ : Type} (s : Store μ) (k : Nat) (c : ClassShape φ ν) :
    List (Item φ μ) :=
  let metadata := getMetadataArray s k c.ctorId none
  if metadata.length = 0 then []
  else [.cls "constructor" metadata c.ctorId]

/-- The inner loop shared by all three parts of `Reflector.parameters`:
one parameter map yields one item per index whose array is non-empty, in map
insertion order. -/
def paramsOfMap {φ μ : Type} (n : String) (m : List (Nat × List μ)) : List (Item φ μ) :=
  m.filterMap fun p =>
    if p.2.length > 0 then some (.param n p.2 p.1) else none

/-- The instance-method-parameter loop of `Reflector.parameters`: prototype
chain walk with the same `seen` discipline (a name enters `seen` only when at
least one of its indices produced an item). -/
def parametersAux {φ ν μ : Type} (s : Store μ) (k : Nat) :
    List (Level φ ν × String) → List String → List (Item φ μ)
  | [], _ => []
  | (lv, n) :: rest, seen =>
    if n ∈ seen then parametersAux s k rest seen
    else
      match getParameterMap s k lv.oid (some n) with
      | none => parametersAux s k rest seen
      | some m =>
        let items : List (Item φ μ) := paramsOfMap n m
        if items.isEmpty then parametersAux s k rest seen
        else items ++ parametersAux s k rest (n :: seen)

/-- The static-method-parameter loop of `Reflector.parameters`. -/
def staticParameters {φ ν μ : Type} (s : Store μ) (k : Nat) (c : ClassShape φ ν) :
    List (Item φ μ) :=
  (getOwnKeys c.statics).foldr
    (fun n acc =>
      match getParameterMap s k c.ctorId (some n) with
      | none => acc
      | some m => paramsOfMap n m ++ acc)
    []

/-- `Reflector.parameters`: constructor parameters from the constructor's own
parameter map, then instance-method parameters via the chain walk, then
static-method parameters. -/
def parameters {φ ν μ : Type} (s : Store μ) (k : Nat) (c : ClassShape φ ν) :
    List (Item φ μ) :=
  (match getParameterMap s k c.ctorId none with
   | none => []
   | some m => paramsOfMap "constructor" m)
    ++ parametersAux s k (keysWithTarget c.chain) []
    ++ staticParameters s k c

/-- `Reflector.all`: class ++ methods ++ properties ++ parameters, in that
fixed order. -/
def all {φ ν μ : Type} (s : Store μ) (k : Nat) (c : ClassShape φ ν) :
    List (Item φ μ) :=
  classQuery s k c ++ methods s k c ++ properties s k c ++ parameters s k c

end Reflector

/-! ### The decorator factory layer (factories.ts) -/

/-- factories.ts `compose`: `fn ? fn(...args) : args[0]`.  The result is a
possibly-`undefined` JS value (`none` = `undefined`, which `args[0]` yields
when `args` is empty); a supplied compose function receives the whole spread
argument list. -/
def compose {ν : Type} (args : List ν) (fn : Option (List ν → ν)) : Option ν :=
  match fn with
  | some f => some (f args)
  | none => args.head?

/-- Applying a decorator produced by `createClassDecorator` (factory key `k`,
optional compose function `fn`) with arguments `args` to the class whose
constructor id is `ctorId`: `appendMetadata(key, target, compose(args, composeFn))`. -/
def classDecoratorApply {ν : Type} (k : Nat) (fn : Option (List ν → ν)) (args : List ν)
    (ctorId : Nat) (s : Store (Option ν)) : Store (Option ν) :=
  appendMetadata s k ctorId none (compose args fn)

/-- Applying a decorator produced by `createMethodDecorator` to the member
`name` of the owner object `oid` (a prototype for instance methods, the
constructor for statics). -/
def methodDecoratorApply {ν : Type} (k : Nat) (fn : Option (List ν → ν)) (args : List ν)
    (oid : Nat) (name : String) (s : Store (Option ν)) : Store (Option ν) :=
  appendMetadata s k oid (some name) (compose args fn)

/-- Applying a decorator produced by `createMethodInterceptor`: append the
composed metadata value; then, only when the descriptor is present and its
value is callable, re-read the accumulated metadata array and replace the
descriptor's value with `interceptor(original, metadata, context)`.  The
context passed to the interceptor is modelled as the (owner id, member name)
pair; the copying of the wrapped function's `name` property is a JS
introspection detail outside this model.  Returns the new store and the new
descriptor. -/
def methodInterceptorApply {φ ν : Type} (k : Nat) (fn : Option (List ν → ν))
    (interceptor : φ → List (Option ν) → Nat × String → φ) (args : List ν)
    (oid : Nat) (name : String) (desc : Option (Slot φ ν)) (s : Store (Option ν)) :
    Store (Option ν) × Option (Slot φ ν) :=
  let s1 := appendMetadata s k oid (some name) (compose args fn)
  match desc with
  | some (.fn original) =>
    let metadata := getMetadataArray s1 k oid (some name)
    let wrapped := interceptor original metadata (oid, name)
    (s1, some (.fn wrapped))
  | other => (s1, other)

/-- `Object.defineProperty(target, n, slot)` on a modelled property table:
replaces the slot in place when `n` already exists (JS keeps the original
enumeration position), otherwise appends it. -/
def setSlot {φ ν : Type} (props : List (String × Slot φ ν)) (n : String) (sl : Slot φ ν) :
    List (String × Slot φ ν) :=
  if props.any (fun p => p.1 = n) then
    props.map fun p => if p.1 = n then (n, sl) else p
  else props ++ [(n, sl)]

/-- factories.ts `toAccessor`: if the property's own descriptor already has a
getter or setter, return an accessor descriptor reusing them (without
touching the target); otherwise build a fresh accessor pair backed by a
per-instance store, install it on the target, and return it.  The fresh
getter/setter closures are supplied as `g0`/`s0` (their WeakMap round-trip
behaviour is not needed here, only the descriptor shape).  Returns the
descriptor's accessor pair and the (possibly updated) property table. -/
def toAccessor {φ ν : Type} (g0 s0 : φ) (props : List (String × Slot φ ν)) (n : String) :
    (Option φ × Option φ) × List (String × Slot φ ν) :=
  match lookupSlot props n with
  | some (.accessor g s) =>
    if g.isSome || s.isSome then ((g, s), props)
    else ((some g0, some s0), setSlot props n (.accessor (some g0) (some s0)))
  | _ => ((some g0, some s0), setSlot props n (.accessor (some g0) (some s0)))

/-- Applying a decorator produced by `createPropertyInterceptor`: append the
composed metadata value; if neither `onGet` nor `onSet` was supplied, stop
there.  Otherwise convert the property to an accessor, wrap the getter/setter
with the supplied callbacks (each only when both the callback and the
corresponding accessor half exist), and install the resulting accessor pair
on the owner.  Returns the new store and the owner's new property table. -/
def propertyInterceptorApply {φ ν : Type} (k : Nat) (fn : Option (List ν → ν))
    (onGet onSet : Option (φ → List (Option ν) → Nat × String → φ)) (g0 s0 : φ)
    (args : List ν) (oid : Nat) (name : String)
    (props : List (String × Slot φ ν)) (s : Store (Option ν)) :
    Store (Option ν) × List (String × Slot φ ν) :=
  let s1 := appendMetadata s k oid (some name) (compose args fn)
  if onGet.isNone && onSet.isNone then (s1, props)
  else
    let conv := toAccessor g0 s0 props name
    let metadata := getMetadataArray s1 k oid (some name)
    let g1 := match onGet, conv.1.1 with
      | some h, some getter => some (h getter metadata (oid, name))
      | _, g => g
    let s2 := match onSet, conv.1.2 with
      | some h, some setter => some (h setter metadata (oid, name))
      | _, st => st
    (s1, setSlot conv.2 name (.accessor g1 s2))

/-- Calling the callable held in a descriptor, for trace-valued functions:
`invoke d t` runs the descriptor's value on trace `t` (identity when there is
no callable value). -/
def invoke {ν : Type} (d : Option (Slot (List String → List String) ν)) (t : List String) :
    List String :=
  match d with
  | some (.fn f) => f t
  | _ => t

/-- Repeated application of one class decorator (same factory, so same key
and compose function) with successive argument lists, in host application
order (first list = first applied, i.e. the bottom-most stacked decorator). -/
def classDecoratorApplyAll {ν : Type} (k : Nat) (fn : Option (List ν → ν))
    (argss : List (List ν)) (ctorId : Nat) (s : Store (Option ν)) : Store (Option ν) :=
  argss.foldl (fun st args => classDecoratorApply k fn args ctorId st) s

/-! ### Concrete scenarios used by individual claims -/

/-- C1 scenario: the parent prototype (object id 1) declares method `m`
(implementation tagged `10`) and carries metadata `["pm"]` for key 0; the
child prototype (object id 2) redeclares `m` (implementation tagged `20`)
without re-applying the decorator, so it has no own metadata for `m`. -/
def c1Store : Store String := Store.empty.set 0 1 (some "m") (.arr ["pm"])

/-- C1 scenario: the child prototype level. -/
def c1Child : Level Nat Unit := ⟨2, [("m", .fn 20)]⟩

/-- C1 scenario: the parent prototype level. -/
def c1Parent : Level Nat Unit := ⟨1, [("m", .fn 10)]⟩

/-- C1 scenario: the child class (constructor id 3, no statics). -/
def c1Shape : ClassShape Nat Unit := ⟨3, [], [c1Child, c1Parent]⟩

/-- C2 witness scenario: like the C1 store, but the child also re-decorates
`m`, with its own metadata `["cm"]`. -/
def c2Store : Store String :=
  (Store.empty.set 0 1 (some "m") (.arr ["pm"])).set 0 2 (some "m") (.arr ["cm"])

/-- C3 scenario: the store after the two stacked class decorators
`@Role("admin")` over `@Role("user")` on class `Controller` (constructor
id 9); host order applies the innermost decorator first, so `"user"` is
appended before `"admin"`.  The `Role` factory has key 7 and no compose
function. -/
def c3RoleStore : Store (Option String) :=
  classDecoratorApply 7 none ["admin"] 9 (classDecoratorApply 7 none ["user"] 9 Store.empty)

/-- C3 scenario: the `Controller` class. -/
def c3Controller : ClassShape Nat String := ⟨9, [], []⟩

/-- C4 scenario: the label a `Log` interceptor reads from its accumulated
metadata array (its own application's value is the last element). -/
def c4Label (md : List (Option String)) : String :=
  match md.getLast? with
  | some (some l) => l
  | _ => "?"

/-- C4 scenario: the `Log` interceptor: the replacement appends its label to
the trace, then calls the implementation it wrapped. -/
def c4Log : (List String → List String) → List (Option String) → Nat × String →
    (List String → List String) :=
  fun original md _ => fun t => original (t ++ [c4Label md])

/-- C4 scenario: the original method body. -/
def c4Body : List String → List String := fun t => t ++ ["body"]

/-- C4 scenario: the first (inner, bottom-most) `@Log("inner")` application
to the concrete method `m` of prototype 2. -/
def c4Step1 : Store (Option String) × Option (Slot (List String → List String) String) :=
  methodInterceptorApply 5 none c4Log ["inner"] 2 "m" (some (.fn c4Body)) Store.empty

/-- C4 scenario: the second (outer) `@Log("outer")` application, receiving
the descriptor as the first application left it. -/
def c4Step2 : Store (Option String) × Option (Slot (List String → List String) String) :=
  methodInterceptorApply 5 none c4Log ["outer"] 2 "m" c4Step1.2 c4Step1.1

/-- C5 witness scenario: a class with a decorated-looking shape (a static
method, an instance method and an instance property) but, with the empty
store, no metadata anywhere. -/
def c5Shape : ClassShape Nat Unit := ⟨1, [("sm", .fn 5)], [⟨2, [("m", .fn 3), ("p", .data none)]⟩]⟩

/-- C6 witness scenario: a store carrying class-level metadata `["x"]` for
key 0 on constructor id 1. -/
def c6Store : Store String := Store.empty.set 0 1 none (.arr ["x"])

/-- C6 witness scenario: the decorated class. -/
def c6Shape : ClassShape Nat Unit := ⟨1, [], []⟩

/-- C7 witness scenario: only the parent constructor (id 1) carries
class-level metadata for key 0; the child constructor (id 2) has none. -/
def c7Store : Store String := Store.empty.set 0 1 none (.arr ["x"])

/-- C7 witness scenario: the child class (constructor id 2, prototype
chain through the parent's prototype, id 4). -/
def c7Child : ClassShape Nat Unit := ⟨2, [], [⟨3, []⟩, ⟨4, []⟩]⟩

/-- C10 witness scenario: a prototype property table where `p` is a plain
data property holding the value `0`. -/
def c10Props : List (String × Slot Nat Nat) := [("p", .data (some 0))]

/-- C10 witness scenario: applying a property interceptor with an `onGet`
callback (getters modelled as naturals; the callback maps getter `g` to
`g + 100`) to the plain data property `p` of prototype 8. -/
def c10Result : Store (Option Nat) × List (String × Slot Nat Nat) :=
  propertyInterceptorApply 4 none (some fun g _ _ => g + 100) none 1 2 [0] 8 "p" c10Props
    Store.empty

/-! ### Store lemmas -/

theorem getOwnMetadata_set_self {μ : Type} (s : Store μ) (k o : Nat) (m : Option String)
    (v : StoredVal μ) : getOwnMetadata (s.set k o m v) k o m = some v := by
  simp [getOwnMetadata, Store.set]

theorem getMetadataArray_append_self {μ : Type} (s : Store μ) (k o : Nat) (m : Option String)
    (v : μ) :
    getMetadataArray (appendMetadata s k o m v) k o m = getMetadataArray s k o m ++ [v] := by
  simp [appendMetadata, getMetadataArray, getOwnMetadata, Store.set]

/-! ### Walk lemmas -/

theorem mem_methodsAux_metadata {φ ν μ : Type} (s : Store μ) (k : Nat) :
    ∀ (pairs : List (Level φ ν × String)) (seen : List String) (it : Item φ μ),
      it ∈ Reflector.methodsAux s k pairs seen → it.metadata ≠ [] := by
  intro pairs
  induction pairs with
  | nil => intro seen it h; simp [Reflector.methodsAux] at h
  | cons p rest ih =>
    intro seen it h
    obtain ⟨lv, n⟩ := p
    simp only [Reflector.methodsAux] at h
    split at h
    · exact ih _ _ h
    · split at h
      · split at h
        · rcases List.mem_cons.mp h with h1 | h1
          · subst h1
            simp only [Item.metadata]
            exact List.length_pos.mp (by omega)
          · exact ih _ _ h1
        · exact ih _ _ h
      · exact ih _ _ h

theorem mem_propertiesAux_metadata {φ ν μ : Type} (s : Store μ) (k : Nat) :
    ∀ (pairs : List (Level φ ν × String)) (seen : List String) (it : Item φ μ),
      it ∈ Reflector.propertiesAux s k pairs seen → it.metadata ≠ [] := by
  intro pairs
  induction pairs with
  | nil => intro seen it h; simp [Reflector.propertiesAux] at h
  | cons p rest ih =>
    intro seen it h
    obtain ⟨lv, n⟩ := p
    simp only [Reflector.propertiesAux] at h
    split at h
    · exact ih _ _ h
    · split at h
      · exact ih _ _ h
      · split at h
        · rcases List.mem_cons.mp h with h1 | h1
          · subst h1
            simp only [Item.metadata]
            exact List.length_pos.mp (by omega)
          · exact ih _ _ h1
        · exact ih _ _ h

theorem mem_paramsOfMap_metadata {φ μ : Type} (n : String) (m : List (Nat × List μ))
    (it : Item φ μ) (h : it ∈ Reflector.paramsOfMap n m) : it.metadata ≠ [] := by
  simp only [Reflector.paramsOfMap, List.mem_filterMap] at h
  obtain ⟨p, _, hp⟩ := h
  split at hp
  · cases hp
    simp only [Item.metadata]
    exact List.length_pos.mp (by omega)
  · cases hp

theorem mem_parametersAux_metadata {φ ν μ : Type} (s : Store μ) (k : Nat) :
    ∀ (pairs : List (Level φ ν × String)) (seen : List String) (it : Item φ μ),
      it ∈ Reflector.parametersAux s k pairs seen → it.metadata ≠ [] := by
  intro pairs
  induction pairs with
  | nil => intro seen it h; simp [Reflector.parametersAux] at h
  | cons p rest ih =>
    intro seen it h
    obtain ⟨lv, n⟩ := p
    simp only [Reflector.parametersAux] at h
    split at h
    · exact ih _ _ h
    · split at h
      · exact ih _ _ h
      · split at h
        · exact ih _ _ h
        · rcases List.mem_append.mp h with h1 | h1
          · exact mem_paramsOfMap_metadata _ _ _ h1
          · exact ih _ _ h1

theorem mem_staticMethods_metadata {φ ν μ : Type} (s : Store μ) (k : Nat)
    (c : ClassShape φ ν) (it : Item φ μ) (h : it ∈ Reflector.staticMethods s k c) :
    it.metadata ≠ [] := by
  simp only [Reflector.staticMethods, List.mem_filterMap] at h
  obtain ⟨n, _, hn⟩ := h
  split at hn
  · split at hn
    · cases hn
      simp only [Item.metadata]
      exact List.length_pos.mp (by omega)
    · cases hn
  · cases hn

theorem mem_staticProperties_metadata {φ ν μ : Type} (s : Store μ) (k : Nat)
    (c : ClassShape φ ν) (it : Item φ μ) (h : it ∈ Reflector.staticProperties s k c) :
    it.metadata ≠ [] := by
  simp only [Reflector.staticProperties, List.mem_filterMap] at h
  obtain ⟨n, _, hn⟩ := h
  split at hn
  · cases hn
  · split at hn
    · cases hn
      simp only [Item.metadata]
      exact List.length_pos.mp (by omega)
    · cases hn

theorem mem_staticParameters_metadata {φ ν μ : Type} (s : Store μ) (k : Nat)
    (c : ClassShape φ ν) (it : Item φ μ) (h : it ∈ Reflector.staticParameters s k c) :
    it.metadata ≠ [] := by
  unfold Reflector.staticParameters at h
  generalize getOwnKeys c.statics = keys at h
  induction keys with
  | nil => simp at h
  | cons n rest ih =>
    simp only [List.foldr_cons] at h
    revert h
    split
    · exact ih
    · intro h
      rcases List.mem_append.mp h with h1 | h1
      · exact mem_paramsOfMap_metadata _ _ _ h1
      · exact ih h1

theorem mem_classQuery_metadata {φ ν μ : Type} (s : Store μ) (k : Nat)
    (c : ClassShape φ ν) (it : Item φ μ) (h : it ∈ Reflector.classQuery s k c) :
    it.metadata ≠ [] := by
  simp only [Reflector.classQuery] at h
  split at h
  · cases h
  next hne =>
    rcases List.mem_singleton.mp h with rfl
    simp only [Item.metadata]
    intro hcon
    exact hne (by simp [hcon])

theorem methodsAux_filter_of_seen {φ ν μ : Type} (s : Store μ) (k : Nat) (n : String) :
    ∀ (pairs : List (Level φ ν × String)) (seen : List String), n ∈ seen →
      (Reflector.methodsAux s k pairs seen).filter (fun it => it.name == n) = [] := by
  intro pairs
  induction pairs with
  | nil => intro seen _; simp [Reflector.methodsAux]
  | cons p rest ih =>
    intro seen hn
    obtain ⟨lv, m⟩ := p
    simp only [Reflector.methodsAux]
    by_cases hm : m ∈ seen
    · rw [if_pos hm]; exact ih seen hn
    · rw [if_neg hm]
      have hmn : m ≠ n := fun e => hm (e ▸ hn)
      cases hls : lookupSlot lv.props m with
      | none => exact ih seen hn
      | some sl =>
        cases sl with
        | fn f =>
          by_cases hlen : (getMetadataArray s k lv.oid (some m)).length > 0
          · simp only [if_pos hlen, List.filter_cons]
            have : (Item.name (φ := φ) (μ := μ) (.method m (getMetadataArray s k lv.oid (some m)) f) == n) = false := by
              simp [Item.name, hmn]
            rw [this]
            exact ih (m :: seen) (List.mem_cons_of_mem _ hn)
          · simp only [if_neg hlen]
            exact ih seen hn
        | data v => exact ih seen hn
        | accessor g st => exact ih seen hn

theorem propertiesAux_filter_of_seen {φ ν μ : Type} (s : Store μ) (k : Nat) (n : String) :
    ∀ (pairs : List (Level φ ν × String)) (seen : List String), n ∈ seen →
      (Reflector.propertiesAux s k pairs seen).filter (fun it => it.name == n) = [] := by
  intro pairs
  induction pairs with
  | nil => intro seen _; simp [Reflector.propertiesAux]
  | cons p rest ih =>
    intro seen hn
    obtain ⟨lv, m⟩ := p
    simp only [Reflector.propertiesAux]
    by_cases hm : m ∈ seen
    · rw [if_pos hm]; exact ih seen hn
    · rw [if_neg hm]
      have hmn : m ≠ n := fun e => hm (e ▸ hn)
      by_cases hfn : descIsFn (lookupSlot lv.props m) = true
      · rw [if_pos hfn]; exact ih seen hn
      · rw [if_neg hfn]
        by_cases hlen : (getMetadataArray s k lv.oid (some m)).length > 0
        · simp only [if_pos hlen, List.filter_cons]
          have : (Item.name (φ := φ) (μ := μ) (.prop m (getMetadataArray s k lv.oid (some m))) == n) = false := by
            simp [Item.name, hmn]
          rw [this]
          exact ih (m :: seen) (List.mem_cons_of_mem _ hn)
        · simp only [if_neg hlen]
          exact ih seen hn

theorem methodsAux_filter_not_fn {φ ν μ : Type} (s : Store μ) (k : Nat) (n : String) :
    ∀ (pairs : List (Level φ ν × String)) (seen : List String),
      (∀ lv : Level φ ν, (lv, n) ∈ pairs → descIsFn (lookupSlot lv.props n) = false) →
      (Reflector.methodsAux s k pairs seen).filter (fun it => it.name == n) = [] := by
  intro pairs
  induction pairs with
  | nil => intro seen _; simp [Reflector.methodsAux]
  | cons p rest ih =>
    intro seen hno
    obtain ⟨lv, m⟩ := p
    have hrest : ∀ lv' : Level φ ν, (lv', n) ∈ rest → descIsFn (lookupSlot lv'.props n) = false :=
      fun lv' h => hno lv' (List.mem_cons_of_mem _ h)
    simp only [Reflector.methodsAux]
    by_cases hm : m ∈ seen
    · rw [if_pos hm]; exact ih seen hrest
    · rw [if_neg hm]
      cases hls : lookupSlot lv.props m with
      | none => exact ih seen hrest
      | some sl =>
        cases sl with
        | fn f =>
          have hmn : m ≠ n := by
            intro e
            subst e
            have := hno lv (List.mem_cons_self _ _)
            rw [hls] at this
            simp [descIsFn] at this
          by_cases hlen : (getMetadataArray s k lv.oid (some m)).length > 0
          · simp only [if_pos hlen, List.filter_cons]
            have : (Item.name (φ := φ) (μ := μ) (.method m (getMetadataArray s k lv.oid (some m)) f) == n) = false := by
              simp [Item.name, hmn]
            rw [this]
            exact ih (m :: seen) hrest
          · simp only [if_neg hlen]
            exact ih seen hrest
        | data v => exact ih seen hrest
        | accessor g st => exact ih seen hrest

theorem propertiesAux_single_filter {φ ν μ : Type} (s : Store μ) (k : Nat) (lv : Level φ ν)
    (n : String) (md : List μ)
    (hfn : descIsFn (lookupSlot lv.props n) = false)
    (hmd : getMetadataArray s k lv.oid (some n) = md) :
    ∀ (keys : List String) (seen : List String), n ∉ seen →
      (Reflector.propertiesAux s k (keys.map fun m => (lv, m)) seen).filter
        (fun it => it.name == n) = if n ∈ keys ∧ md.length > 0 then [Item.prop n md] else [] := by
  intro keys
  induction keys with
  | nil => intro seen _; simp [Reflector.propertiesAux]
  | cons m rest ih =>
    intro seen hn
    simp only [List.map_cons, Reflector.propertiesAux]
    by_cases hm : m ∈ seen
    · rw [if_pos hm, ih seen hn]
      have hmn : n ≠ m := fun e => hn (by rw [e]; exact hm)
      simp [List.mem_cons, hmn]
    · rw [if_neg hm]
      by_cases hmn : m = n
      · subst hmn
        rw [if_neg (by simp [hfn]), hmd]
        by_cases hne : md.length > 0
        · rw [if_pos hne, List.filter_cons]
          rw [show (Item.name (φ := φ) (μ := μ) (.prop m md) == m) = true by simp [Item.name]]
          rw [propertiesAux_filter_of_seen s k m _ (m :: seen) (List.mem_cons_self _ _)]
          simp [hne]
        · rw [if_neg hne, ih seen hn]
          simp [hne]
      · have hnm : n ≠ m := fun e => hmn e.symm
        by_cases hfn2 : descIsFn (lookupSlot lv.props m) = true
        · rw [if_pos hfn2, ih seen hn]
          simp [List.mem_cons, hnm]
        · rw [if_neg hfn2]
          by_cases hlen : (getMetadataArray s k lv.oid (some m)).length > 0
          · simp only [if_pos hlen, List.filter_cons]
            rw [show (Item.name (φ := φ) (μ := μ)
                (.prop m (getMetadataArray s k lv.oid (some m))) == n) = false by
              simp [Item.name, hmn]]
            rw [ih (m :: seen) (by simp [hn, hnm])]
            simp [List.mem_cons, hnm]
          · simp only [if_neg hlen]
            rw [ih seen hn]
            simp [List.mem_cons, hnm]

theorem staticMethods_filter_not_mem {φ ν μ : Type} (s : Store μ) (k : Nat)
    (c : ClassShape φ ν) (n : String) (hn : n ∉ getOwnKeys c.statics) :
    (Reflector.staticMethods s k c).filter (fun it => it.name == n) = [] := by
  rw [List.filter_eq_nil_iff]
  intro it hit
  simp only [Reflector.staticMethods, List.mem_filterMap] at hit
  obtain ⟨m, hm, hsome⟩ := hit
  have hmn : m ≠ n := fun e => hn (e ▸ hm)
  revert hsome
  split
  · split
    · intro h; cases h; simp [Item.name, hmn]
    · intro h; cases h
  · intro h; cases h

theorem staticProperties_filter_not_mem {φ ν μ : Type} (s : Store μ) (k : Nat)
    (c : ClassShape φ ν) (n : String) (hn : n ∉ getOwnKeys c.statics) :
    (Reflector.staticProperties s k c).filter (fun it => it.name == n) = [] := by
  rw [List.filter_eq_nil_iff]
  intro it hit
  simp only [Reflector.staticProperties, List.mem_filterMap] at hit
  obtain ⟨m, hm, hsome⟩ := hit
  have hmn : m ≠ n := fun e => hn (e ▸ hm)
  revert hsome
  split
  · intro h; cases h
  · split
    · intro h; cases h; simp [Item.name, hmn]
    · intro h; cases h

theorem lookupSlot_map_set {φ ν : Type} (n : String) (sl : Slot φ ν) :
    ∀ props : List (String × Slot φ ν), props.any (fun p => p.1 = n) = true →
      lookupSlot (props.map fun p => if p.1 = n then (n, sl) else p) n = some sl := by
  intro props
  induction props with
  | nil => intro h; simp at h
  | cons p ps ih =>
    intro hany
    by_cases hp : p.1 = n
    · simp [lookupSlot, List.find?, hp]
    · simp only [List.map_cons, if_neg hp, lookupSlot, List.find?]
      rw [show (decide (p.1 = n)) = false by simp [hp]]
      simp only [List.any_cons, Bool.or_eq_true] at hany
      rcases hany with h1 | h1
      · exact absurd (of_decide_eq_true h1) hp
      · exact ih h1

theorem lookupSlot_append_of_not_any {φ ν : Type} (n : String) (sl : Slot φ ν) :
    ∀ props : List (String × Slot φ ν), props.any (fun p => p.1 = n) = false →
      lookupSlot (props ++ [(n, sl)]) n = some sl := by
  intro props
  induction props with
  | nil => intro _; simp [lookupSlot, List.find?]
  | cons p ps ih =>
    intro hany
    simp only [List.any_cons, Bool.or_eq_false_iff] at hany
    simp only [List.cons_append, lookupSlot, List.find?]
    rw [hany.1]
    exact ih hany.2

theorem lookupSlot_setSlot_self {φ ν : Type} (n : String) (sl : Slot φ ν)
    (props : List (String × Slot φ ν)) : lookupSlot (setSlot props n sl) n = some sl := by
  unfold setSlot
  split
  next hany => exact lookupSlot_map_set n sl props hany
  next hany =>
    exact lookupSlot_append_of_not_any n sl props (Bool.eq_false_iff.mpr hany)

theorem map_fst_setSlot {φ ν : Type} (props : List (String × Slot φ ν)) (n : String)
    (sl : Slot φ ν) (hany : props.any (fun p => p.1 = n) = true) :
    (setSlot props n sl).map Prod.fst = props.map Prod.fst := by
  unfold setSlot
  rw [if_pos hany, List.map_map]
  apply List.map_congr_left
  intro p _
  by_cases hp : p.1 = n
  · simp [hp]
  · simp [hp]

theorem any_key_of_lookupSlot_some {φ ν : Type} (props : List (String × Slot φ ν))
    (n : String) (sl : Slot φ ν) (h : lookupSlot props n = some sl) :
    props.any (fun p => p.1 = n) = true := by
  unfold lookupSlot at h
  cases hf : props.find? (fun p => decide (p.1 = n)) with
  | none => rw [hf] at h; cases h
  | some p =>
    have hp := List.find?_some hf
    have hm := List.mem_of_find?_eq_some hf
    exact List.any_eq_true.mpr ⟨p, hm, hp⟩

theorem getOwnKeys_setSlot {φ ν : Type} (props : List (String × Slot φ ν)) (n : String)
    (sl : Slot φ ν) (hany : props.any (fun p => p.1 = n) = true) :
    getOwnKeys (setSlot props n sl) = getOwnKeys props := by
  unfold getOwnKeys
  rw [map_fst_setSlot props n sl hany]

theorem mem_getOwnKeys_of_lookupSlot {φ ν : Type} (props : List (String × Slot φ ν))
    (n : String) (sl : Slot φ ν) (h : lookupSlot props n = some sl)
    (hn1 : n ≠ "constructor") (hn2 : n ≠ "prototype") : n ∈ getOwnKeys props := by
  unfold getOwnKeys
  apply List.mem_filter.mpr
  refine ⟨?_, by simp [hn1, hn2]⟩
  unfold lookupSlot at h
  cases hf : props.find? (fun p => decide (p.1 = n)) with
  | none => rw [hf] at h; cases h
  | some p =>
    have hp : p.1 = n := of_decide_eq_true (List.find?_eq_some.mp hf).1
    have hm := List.mem_of_find?_eq_some hf
    exact hp ▸ List.mem_map_of_mem Prod.fst hm

theorem propertyInterceptorApply_slot {φ ν : Type} (k : Nat) (fn : Option (List ν → ν))
    (og os : Option (φ → List (Option ν) → Nat × String → φ)) (g0 s0 : φ)
    (args : List ν) (oid : Nat) (n : String) (props : List (String × Slot φ ν))
    (st : Store (Option ν)) (v0 : Option ν)
    (hcb : (og.isNone && os.isNone) = false)
    (hslot : lookupSlot props n = some (.data v0)) :
    ∃ G S : φ,
      (propertyInterceptorApply k fn og os g0 s0 args oid n props st).2
        = setSlot (setSlot props n (.accessor (some g0) (some s0))) n
            (.accessor (some G) (some S)) := by
  cases og with
  | none =>
    cases os with
    | none => simp at hcb
    | some b =>
      refine ⟨g0, b s0 (getMetadataArray (appendMetadata st k oid (some n) (compose args fn))
        k oid (some n)) (oid, n), ?_⟩
      simp [propertyInterceptorApply, toAccessor, hslot]
  | some a =>
    cases os with
    | none =>
      refine ⟨a g0 (getMetadataArray (appendMetadata st k oid (some n) (compose args fn))
        k oid (some n)) (oid, n), s0, ?_⟩
      simp [propertyInterceptorApply, toAccessor, hslot]
    | some b =>
      refine ⟨a g0 (getMetadataArray (appendMetadata st k oid (some n) (compose args fn))
        k oid (some n)) (oid, n),
        b s0 (getMetadataArray (appendMetadata st k oid (some n) (compose args fn))
        k oid (some n)) (oid, n), ?_⟩
      simp [propertyInterceptorApply, toAccessor, hslot]

/-! ### Lemmas about keys never written (C5) -/

theorem getMetadataArray_of_unused {μ : Type} (s : Store μ) (k : Nat)
    (hk : ∀ o m, s k o m = none) (o : Nat) (m : Option String) :
    getMetadataArray s k o m = [] := by
  simp [getMetadataArray, getOwnMetadata, hk]

theorem getParameterMap_of_unused {μ : Type} (s : Store μ) (k : Nat)
    (hk : ∀ o m, s k o m = none) (o : Nat) (m : Option String) :
    getParameterMap s k o m = some [] := by
  simp [getParameterMap, getOwnMetadata, hk]

theorem methodsAux_of_unused {φ ν μ : Type} (s : Store μ) (k : Nat)
    (hk : ∀ o m, s k o m = none) :
    ∀ (pairs : List (Level φ ν × String)) (seen : List String),
      Reflector.methodsAux s k pairs seen = [] := by
  intro pairs
  induction pairs with
  | nil => intro seen; simp [Reflector.methodsAux]
  | cons p rest ih =>
    intro seen
    obtain ⟨lv, m⟩ := p
    simp only [Reflector.methodsAux]
    by_cases hm : m ∈ seen
    · rw [if_pos hm]; exact ih seen
    · rw [if_neg hm]
      cases lookupSlot lv.props m with
      | none => exact ih seen
      | some sl =>
        cases sl with
        | fn f => rw [getMetadataArray_of_unused s k hk]; simpa using ih seen
        | data v => exact ih seen
        | accessor g st => exact ih seen

theorem propertiesAux_of_unused {φ ν μ : Type} (s : Store μ) (k : Nat)
    (hk : ∀ o m, s k o m = none) :
    ∀ (pairs : List (Level φ ν × String)) (seen : List String),
      Reflector.propertiesAux s k pairs seen = [] := by
  intro pairs
  induction pairs with
  | nil => intro seen; simp [Reflector.propertiesAux]
  | cons p rest ih =>
    intro seen
    obtain ⟨lv, m⟩ := p
    simp only [Reflector.propertiesAux]
    by_cases hm : m ∈ seen
    · rw [if_pos hm]; exact ih seen
    · rw [if_neg hm]
      by_cases hfn : descIsFn (lookupSlot lv.props m) = true
      · rw [if_pos hfn]; exact ih seen
      · rw [if_neg hfn, getMetadataArray_of_unused s k hk]
        simpa using ih seen

theorem parametersAux_of_unused {φ ν μ : Type} (s : Store μ) (k : Nat)
    (hk : ∀ o m, s k o m = none) :
    ∀ (pairs : List (Level φ ν × String)) (seen : List String),
      Reflector.parametersAux s k pairs seen = [] := by
  intro pairs
  induction pairs with
  | nil => intro seen; simp [Reflector.parametersAux]
  | cons p rest ih =>
    intro seen
    obtain ⟨lv, m⟩ := p
    simp only [Reflector.parametersAux]
    by_cases hm : m ∈ seen
    · rw [if_pos hm]; exact ih seen
    · rw [if_neg hm, getParameterMap_of_unused s k hk]
      simpa [Reflector.paramsOfMap] using ih seen

theorem staticMethods_of_unused {φ ν μ : Type} (s : Store μ) (k : Nat)
    (hk : ∀ o m, s k o m = none) (c : ClassShape φ ν) :
    Reflector.staticMethods s k c = [] := by
  unfold Reflector.staticMethods
  rw [List.filterMap_eq_nil_iff]
  intro n _
  split
  · rw [getMetadataArray_of_unused s k hk]; simp
  · rfl

theorem staticProperties_of_unused {φ ν μ : Type} (s : Store μ) (k : Nat)
    (hk : ∀ o m, s k o m = none) (c : ClassShape φ ν) :
    Reflector.staticProperties s k c = [] := by
  unfold Reflector.staticProperties
  rw [List.filterMap_eq_nil_iff]
  intro n _
  split
  · rfl
  · rw [getMetadataArray_of_unused s k hk]; simp

theorem staticParameters_of_unused {φ ν μ : Type} (s : Store μ) (k : Nat)
    (hk : ∀ o m, s k o m = none) (c : ClassShape φ ν) :
    Reflector.staticParameters s k c = [] := by
  unfold Reflector.staticParameters
  induction getOwnKeys c.statics with
  | nil => rfl
  | cons n rest ih =>
    rw [List.foldr_cons, getParameterMap_of_unused s k hk]
    simpa [Reflector.paramsOfMap] using ih

/-! ### Claim theorems -/

/-- C5: for every class and every key under which no metadata was ever
written, `class`, `methods`, `properties` and `parameters` (and hence `all`)
each return the empty list.  All queries are total Lean functions over the
embedding, so a not-found condition can only surface as an empty collection,
never as an exception. -/
theorem c5_unused_key_empty_reads {φ ν μ : Type} (s : Store μ) (k : Nat) (c : ClassShape φ ν)
    (hk : ∀ o m, s k o m = none) :
    Reflector.classQuery s k c = ([] : List (Item φ μ)) ∧ Reflector.methods s k c = [] ∧
    Reflector.properties s k c = [] ∧ Reflector.parameters s k c = [] ∧
    Reflector.all s k c = [] := by
  have h1 : Reflector.classQuery s k c = ([] : List (Item φ μ)) := by
    simp [Reflector.classQuery, getMetadataArray_of_unused s k hk]
  have h2 : Reflector.methods s k c = ([] : List (Item φ μ)) := by
    simp [Reflector.methods, methodsAux_of_unused s k hk, staticMethods_of_unused s k hk]
  have h3 : Reflector.properties s k c = ([] : List (Item φ μ)) := by
    simp [Reflector.properties, propertiesAux_of_unused s k hk, staticProperties_of_unused s k hk]
  have h4 : Reflector.parameters s k c = ([] : List (Item φ μ)) := by
    simp [Reflector.parameters, parametersAux_of_unused s k hk, staticParameters_of_unused s k hk,
      getParameterMap_of_unused s k hk, Reflector.paramsOfMap]
  exact ⟨h1, h2, h3, h4, by simp [Reflector.all, h1, h2, h3, h4]⟩

/-- C5 witness: the empty store and a class with a static method, an instance
method and an instance property. -/
theorem c5_witness :
    (∀ o m, (Store.empty : Store String) 0 o m = none) ∧
    (Reflector.classQuery (Store.empty : Store String) 0 c5Shape = [] ∧
      Reflector.methods (Store.empty : Store String) 0 c5Shape = [] ∧
      Reflector.properties (Store.empty : Store String) 0 c5Shape = [] ∧
      Reflector.parameters (Store.empty : Store String) 0 c5Shape = [] ∧
      Reflector.all (Store.empty : Store String) 0 c5Shape = []) :=
  ⟨fun _ _ => rfl, c5_unused_key_empty_reads Store.empty 0 c5Shape (fun _ _ => rfl)⟩

/-- C6: every `DecoratedItem` contained in the result of `all` (hence of any
of the four queries it concatenates) has a non-empty metadata array. -/
theorem c6_metadata_nonempty {φ ν μ : Type} (s : Store μ) (k : Nat) (c : ClassShape φ ν)
    (it : Item φ μ) (hit : it ∈ Reflector.all s k c) : it.metadata ≠ [] := by
  unfold Reflector.all at hit
  rcases List.mem_append.mp hit with h | hpar
  · rcases List.mem_append.mp h with h | hp
    · rcases List.mem_append.mp h with hc | hm
      · exact mem_classQuery_metadata _ _ _ _ hc
      · unfold Reflector.methods at hm
        rcases List.mem_append.mp hm with h1 | h1
        · exact mem_methodsAux_metadata _ _ _ _ _ h1
        · exact mem_staticMethods_metadata _ _ _ _ h1
    · unfold Reflector.properties at hp
      rcases List.mem_append.mp hp with h1 | h1
      · exact mem_propertiesAux_metadata _ _ _ _ _ h1
      · exact mem_staticProperties_metadata _ _ _ _ h1
  · unfold Reflector.parameters at hpar
    rcases List.mem_append.mp hpar with h1 | h1
    · rcases List.mem_append.mp h1 with h2 | h2
      · revert h2
        cases getParameterMap s k c.ctorId none with
        | none => intro h2; simp at h2
        | some m => intro h2; exact mem_paramsOfMap_metadata _ _ _ h2
      · exact mem_parametersAux_metadata _ _ _ _ _ h2
    · exact mem_staticParameters_metadata _ _ _ _ h1

/-- C6 witness: a class item returned for a decorated class. -/
theorem c6_witness :
    (Item.cls (φ := Nat) "constructor" ["x"] 1 ∈ Reflector.all c6Store 0 c6Shape) ∧
    (Item.cls (φ := Nat) "constructor" ["x"] 1).metadata ≠ [] :=
  ⟨by decide, c6_metadata_nonempty c6Store 0 c6Shape _ (by decide)⟩

/-- C7: `class(k)` reads only the class's own metadata address — if the
queried class's constructor has no own entry for `k`, the result is empty no
matter what any ancestor (or any other object) carries; moreover the result
depends only on the store's value at the class's own address. -/
theorem c7_class_no_inherit :
    (∀ (φ ν μ : Type) (s : Store μ) (k : Nat) (c : ClassShape φ ν),
      s k c.ctorId none = none → Reflector.classQuery s k c = []) ∧
    (∀ (φ ν μ : Type) (s₁ s₂ : Store μ) (k : Nat) (c : ClassShape φ ν),
      s₁ k c.ctorId none = s₂ k c.ctorId none →
      Reflector.classQuery (φ := φ) (ν := ν) s₁ k c = Reflector.classQuery s₂ k c) := by
  constructor
  · intro φ ν μ s k c h
    simp [Reflector.classQuery, getMetadataArray, getOwnMetadata, h]
  · intro φ ν μ s₁ s₂ k c h
    unfold Reflector.classQuery getMetadataArray getOwnMetadata
    rw [h]

/-- C7 witness: only the parent constructor carries class metadata; the child
class's query is empty. -/
theorem c7_witness :
    c7Store 0 c7Child.ctorId none = none ∧ Reflector.classQuery c7Store 0 c7Child = [] :=
  ⟨rfl, c7_class_no_inherit.1 Nat Unit String c7Store 0 c7Child rfl⟩

/-- C8: the factory computes the metadata value as `composeFn(args)` when a
compose function was supplied and as `args[0]` otherwise (extra arguments
silently discarded), and a class-decorator application appends exactly that
value to the stored array. -/
theorem c8_compose_semantics :
    (∀ (ν : Type) (f : List ν → ν) (args : List ν), compose args (some f) = some (f args)) ∧
    (∀ (ν : Type) (a : ν) (rest : List ν), compose (a :: rest) none = some a) ∧
    (∀ (ν : Type) (k : Nat) (fn : Option (List ν → ν)) (args : List ν) (cid : Nat)
        (s : Store (Option ν)),
      getMetadataArray (classDecoratorApply k fn args cid s) k cid none
        = getMetadataArray s k cid none ++ [compose args fn]) ∧
    (∀ (ν : Type) (k : Nat) (fn : Option (List ν → ν)) (args : List ν) (oid : Nat)
        (n : String) (s : Store (Option ν)),
      getMetadataArray (methodDecoratorApply k fn args oid n s) k oid (some n)
        = getMetadataArray s k oid (some n) ++ [compose args fn]) :=
  ⟨fun _ _ _ => rfl, fun _ _ _ => rfl,
   fun _ k fn args cid s => getMetadataArray_append_self s k cid none (compose args fn),
   fun _ k fn args oid n s => getMetadataArray_append_self s k oid (some n) (compose args fn)⟩

/-- C9: applying a method-interceptor decorator at a site whose descriptor is
absent or whose value is not callable appends metadata exactly as the plain
method decorator would, leaves the descriptor unchanged, and never invokes
the interceptor (the result does not depend on the `interceptor` argument);
the application is total, so no error is raised. -/
theorem c9_interceptor_skip {φ ν : Type} (k : Nat) (fn : Option (List ν → ν))
    (interceptor : φ → List (Option ν) → Nat × String → φ) (args : List ν) (oid : Nat)
    (n : String) (desc : Option (Slot φ ν)) (s : Store (Option ν))
    (hd : descIsFn desc = false) :
    methodInterceptorApply k fn interceptor args oid n desc s
      = (methodDecoratorApply k fn args oid n s, desc) := by
  cases desc with
  | none => rfl
  | some sl =>
    cases sl with
    | fn f => simp [descIsFn] at hd
    | data v => rfl
    | accessor g st => rfl

/-- C9 witness: an abstract member modelled as a non-callable data slot. -/
theorem c9_witness :
    descIsFn (some (Slot.data (φ := Nat) (ν := Unit) none)) = false ∧
    methodInterceptorApply 0 none (fun (f : Nat) _ _ => f) ([] : List Unit) 1 "m"
        (some (.data none)) Store.empty
      = (methodDecoratorApply 0 none ([] : List Unit) 1 "m" Store.empty, some (.data none)) :=
  ⟨rfl, c9_interceptor_skip 0 none _ [] 1 "m" (some (.data none)) Store.empty rfl⟩

/-- C3: repeated application of one class decorator appends the composed
values in application order — the stored array equals the prior array
extended by the values in the order the host applied them, never reordered;
concretely, stacking `@Role("admin")` above `@Role("user")` on `Controller`
yields a single class item whose metadata array is `["user", "admin"]`
(defined JS values are modelled as `some`-wrapped). -/
theorem c3_order_preservation :
    (∀ (ν : Type) (k : Nat) (fn : Option (List ν → ν)) (argss : List (List ν)) (cid : Nat)
        (s : Store (Option ν)),
      getMetadataArray (classDecoratorApplyAll k fn argss cid s) k cid none
        = getMetadataArray s k cid none ++ argss.map (fun args => compose args fn)) ∧
    Reflector.classQuery c3RoleStore 7 c3Controller
      = [Item.cls "constructor" [some "user", some "admin"] 9] := by
  constructor
  · intro ν k fn argss cid s
    induction argss generalizing s with
    | nil => simp [classDecoratorApplyAll]
    | cons args rest ih =>
      show getMetadataArray
          (classDecoratorApplyAll k fn rest cid (classDecoratorApply k fn args cid s)) k cid none
        = _
      rw [ih (classDecoratorApply k fn args cid s)]
      show getMetadataArray (appendMetadata s k cid none (compose args fn)) k cid none ++ _ = _
      rw [getMetadataArray_append_self]
      simp
  · decide

/-- C4: stacking two method interceptors on a concrete method: each
application reads the currently installed implementation as `original` and
installs `interceptor(original, metadata, context)`, where the metadata array
contains everything appended up to and including that application; so the
final descriptor value is the outer wrap of the inner wrap of the original
body.  Concretely, for two stacked `Log` interceptors the final callable's
trace is outer first, then inner, then the original body. -/
theorem c4_interceptor_composition :
    (∀ (φ ν : Type) (k : Nat) (fn : Option (List ν → ν))
        (interceptor : φ → List (Option ν) → Nat × String → φ)
        (args1 args2 : List ν) (oid : Nat) (n : String) (orig : φ) (s0 : Store (Option ν)),
      (methodInterceptorApply k fn interceptor args1 oid n (some (.fn orig)) s0).2
          = some (.fn (interceptor orig
              (getMetadataArray s0 k oid (some n) ++ [compose args1 fn]) (oid, n))) ∧
      (methodInterceptorApply k fn interceptor args2 oid n
          (methodInterceptorApply k fn interceptor args1 oid n (some (.fn orig)) s0).2
          (methodInterceptorApply k fn interceptor args1 oid n (some (.fn orig)) s0).1).2
        = some (.fn (interceptor
            (interceptor orig (getMetadataArray s0 k oid (some n) ++ [compose args1 fn]) (oid, n))
            (getMetadataArray s0 k oid (some n) ++ [compose args1 fn, compose args2 fn])
            (oid, n)))) ∧
    invoke c4Step2.2 [] = ["outer", "inner", "body"] := by
  refine ⟨?_, ?_⟩
  · intro φ ν k fn interceptor args1 args2 oid n orig s0
    constructor
    · simp [methodInterceptorApply, getMetadataArray_append_self]
    · simp [methodInterceptorApply, getMetadataArray_append_self]
  · decide

/-- C1 counterexample: the child prototype has its own declaration of `m`
(`lookupSlot` finds the child's callable, tagged `20`), yet `methods` on the
child returns the PARENT's metadata `["pm"]` (and the parent's callable,
tagged `10`) for `m` — an ancestor contributes a name even though a nearer
class has an own declaration of it, contradicting the claim. -/
theorem c1_counterexample :
    lookupSlot c1Child.props "m" = some (.fn 20) ∧
    Reflector.methods c1Store 0 c1Shape = [.method "m" ["pm"] (10 : Nat)] :=
  ⟨by decide, by decide⟩

/-- C1 amended: a subclass's own declaration of `N` shadows ancestors only
when the subclass's own metadata array for the key at `N` is non-empty (the
walk marks a name as seen only when it yields an item); a redeclaration with
no own metadata is transparent, and the nearest level with a callable own
declaration of `N` and non-empty own metadata contributes the entry. -/
theorem c1_shadowing_requires_own_metadata {φ ν μ : Type} (s : Store μ)
    (k cid pid ct : Nat) (f g : φ) (n : String) (md : List μ)
    (hn1 : n ≠ "constructor") (hn2 : n ≠ "prototype")
    (hchild : getMetadataArray s k cid (some n) = [])
    (hparent : getMetadataArray s k pid (some n) = md) (hmd : md ≠ []) :
    Reflector.methods s k
        (⟨ct, [], [⟨cid, [(n, Slot.fn (ν := ν) f)]⟩, ⟨pid, [(n, Slot.fn g)]⟩]⟩ : ClassShape φ ν)
      = [.method n md g] := by
  have hlen : md.length > 0 := List.length_pos.mpr hmd
  simp [Reflector.methods, Reflector.staticMethods, keysWithTarget, Reflector.methodsAux,
    lookupSlot, List.find?, getOwnKeys, hn1, hn2, hchild, hparent, hlen]

/-- C1 amended witness: the concrete counterexample scenario, where the
parent's entry surfaces past the child's undecorated redeclaration. -/
theorem c1_shadowing_witness :
    ("m" ≠ "constructor" ∧ getMetadataArray c1Store 0 2 (some "m") = [] ∧
      getMetadataArray c1Store 0 1 (some "m") = ["pm"]) ∧
    Reflector.methods c1Store 0
        (⟨3, [], [⟨2, [("m", Slot.fn (ν := Unit) 20)]⟩, ⟨1, [("m", Slot.fn 10)]⟩]⟩
          : ClassShape Nat Unit)
      = [.method "m" ["pm"] 10] :=
  ⟨⟨by decide, by decide, by decide⟩,
   c1_shadowing_requires_own_metadata c1Store 0 2 1 3 20 10 "m" ["pm"]
     (by decide) (by decide) (by decide) (by decide) (by decide)⟩

/-- C2: a method name `n` declared (callable) and decorated (non-empty own
metadata `cmd`) on the child's own prototype level appears exactly once in
`methods`, carrying only the child's metadata and the child's callable —
whatever metadata any of the arbitrarily many ancestor levels (`rest`) or the
arbitrary store contents carry for `n` never appears. -/
theorem c2_most_derived_wins {φ ν μ : Type} (s : Store μ) (k cid ct : Nat) (f : φ)
    (n : String) (cmd : List μ) (rest : List (Level φ ν))
    (statics : List (String × Slot φ ν))
    (hn1 : n ≠ "constructor") (hn2 : n ≠ "prototype")
    (hmd : getMetadataArray s k cid (some n) = cmd) (hne : cmd ≠ [])
    (hstat : n ∉ getOwnKeys statics) :
    (Reflector.methods s k ⟨ct, statics, ⟨cid, [(n, Slot.fn f)]⟩ :: rest⟩).filter
        (fun it => it.name == n) = [.method n cmd f] := by
  unfold Reflector.methods
  rw [List.filter_append, staticMethods_filter_not_mem s k _ n hstat, List.append_nil]
  have hkw : keysWithTarget (⟨cid, [(n, Slot.fn (ν := ν) f)]⟩ :: rest)
      = (⟨cid, [(n, Slot.fn f)]⟩, n) :: keysWithTarget rest := by
    simp [keysWithTarget, getOwnKeys, hn1, hn2]
  rw [hkw]
  simp [Reflector.methodsAux, lookupSlot, List.find?, hmd, List.length_pos.mpr hne,
    List.filter_cons, Item.name]
  intro a ha
  have h0 := methodsAux_filter_of_seen s k n (keysWithTarget rest) [n] (List.mem_singleton.mpr rfl)
  rw [List.filter_eq_nil_iff] at h0
  have hb := h0 a ha
  simp only [beq_iff_eq] at hb
  exact hb

/-- C2 witness: parent and child both declare and decorate `m`; the child's
entry (metadata `["cm"]`, callable `20`) is the only one named `m`. -/
theorem c2_witness :
    (getMetadataArray c2Store 0 2 (some "m") = ["cm"] ∧ "m" ∉ getOwnKeys ([] : List (String × Slot Nat Unit))) ∧
    (Reflector.methods c2Store 0
        (⟨3, [], ⟨2, [("m", Slot.fn (ν := Unit) 20)]⟩ :: [⟨1, [("m", Slot.fn 10)]⟩]⟩
          : ClassShape Nat Unit)).filter (fun it => it.name == "m")
      = [.method "m" ["cm"] 20] :=
  ⟨⟨by decide, by decide⟩,
   c2_most_derived_wins c2Store 0 2 3 20 "m" ["cm"] [⟨1, [("m", Slot.fn 10)]⟩] []
     (by decide) (by decide) (by decide) (by decide) (by decide)⟩

/-- C10: applying a property interceptor that has an `onGet` or `onSet`
callback to a member that was a plain data property (1) turns that member's
descriptor into a get/set accessor pair with no callable value, so that
(2) for every store and metadata key, `methods` on a class whose prototype
carries the resulting property table never returns that member, while
(3) `properties` returns it exactly when its metadata array for the queried
key is non-empty. -/
theorem c10_property_interceptor_accessor {φ ν : Type} (k : Nat) (fn : Option (List ν → ν))
    (og os : Option (φ → List (Option ν) → Nat × String → φ)) (g0 s0 : φ)
    (args : List ν) (oid : Nat) (n : String) (props : List (String × Slot φ ν))
    (st : Store (Option ν)) (v0 : Option ν)
    (hcb : (og.isNone && os.isNone) = false)
    (hslot : lookupSlot props n = some (.data v0))
    (hn1 : n ≠ "constructor") (hn2 : n ≠ "prototype") :
    (∃ G S : φ,
      lookupSlot (propertyInterceptorApply k fn og os g0 s0 args oid n props st).2 n
        = some (.accessor (some G) (some S))) ∧
    (∀ (μ : Type) (s' : Store μ) (k' ct : Nat),
      (Reflector.methods s' k'
          (⟨ct, [], [⟨oid, (propertyInterceptorApply k fn og os g0 s0 args oid n props st).2⟩]⟩
            : ClassShape φ ν)).filter (fun it => it.name == n) = []) ∧
    (∀ (μ : Type) (s' : Store μ) (k' ct : Nat) (md : List μ),
      getMetadataArray s' k' oid (some n) = md →
      (Reflector.properties s' k'
          (⟨ct, [], [⟨oid, (propertyInterceptorApply k fn og os g0 s0 args oid n props st).2⟩]⟩
            : ClassShape φ ν)).filter (fun it => it.name == n)
        = if md.length > 0 then [Item.prop n md] else []) := by
  obtain ⟨G, S, hP⟩ :=
    propertyInterceptorApply_slot k fn og os g0 s0 args oid n props st v0 hcb hslot
  have hlook : lookupSlot (propertyInterceptorApply k fn og os g0 s0 args oid n props st).2 n
      = some (.accessor (some G) (some S)) := by
    rw [hP]; exact lookupSlot_setSlot_self n _ _
  refine ⟨⟨G, S, hlook⟩, ?_, ?_⟩
  · intro μ s' k' ct
    unfold Reflector.methods
    rw [List.filter_append]
    rw [show Reflector.staticMethods s' k'
        (⟨ct, [], [⟨oid, (propertyInterceptorApply k fn og os g0 s0 args oid n props st).2⟩]⟩
          : ClassShape φ ν) = [] by simp [Reflector.staticMethods, getOwnKeys]]
    rw [List.filter_nil, List.append_nil]
    apply methodsAux_filter_not_fn
    intro lv' hmem
    simp only [keysWithTarget, List.append_nil, List.mem_map] at hmem
    obtain ⟨m, _, heq⟩ := hmem
    injection heq with h1 h2
    subst h1
    subst h2
    simpa [descIsFn] using congrArg descIsFn hlook
  · intro μ s' k' ct md hmd
    unfold Reflector.properties
    rw [List.filter_append]
    rw [show Reflector.staticProperties s' k'
        (⟨ct, [], [⟨oid, (propertyInterceptorApply k fn og os g0 s0 args oid n props st).2⟩]⟩
          : ClassShape φ ν) = [] by simp [Reflector.staticProperties, getOwnKeys]]
    rw [List.filter_nil, List.append_nil]
    have hpairs : keysWithTarget
        [(⟨oid, (propertyInterceptorApply k fn og os g0 s0 args oid n props st).2⟩ : Level φ ν)]
        = (getOwnKeys (propertyInterceptorApply k fn og os g0 s0 args oid n props st).2).map
            (fun m =>
              ((⟨oid, (propertyInterceptorApply k fn og os g0 s0 args oid n props st).2⟩
                : Level φ ν), m)) := by
      simp [keysWithTarget]
    rw [hpairs]
    rw [propertiesAux_single_filter s' k'
      ⟨oid, (propertyInterceptorApply k fn og os g0 s0 args oid n props st).2⟩ n md
      (by simpa [descIsFn] using congrArg descIsFn hlook) hmd
      (getOwnKeys (propertyInterceptorApply k fn og os g0 s0 args oid n props st).2) []
      (List.not_mem_nil n)]
    have hmem : n ∈ getOwnKeys (propertyInterceptorApply k fn og os g0 s0 args oid n props st).2 :=
      mem_getOwnKeys_of_lookupSlot _ n _ hlook hn1 hn2
    simp [hmem]

/-- C10 witness: the concrete scenario — plain data property `p` converted by
an `onGet` interceptor; the resulting descriptor, `methods` exclusion and
`properties` behaviour as the theorem states. -/
theorem c10_witness :
    (∃ G S : Nat, lookupSlot c10Result.2 "p" = some (.accessor (some G) (some S))) ∧
    (∀ (μ : Type) (s' : Store μ) (k' ct : Nat),
      (Reflector.methods s' k' (⟨ct, [], [⟨8, c10Result.2⟩]⟩ : ClassShape Nat Nat)).filter
        (fun it => it.name == "p") = []) ∧
    (∀ (μ : Type) (s' : Store μ) (k' ct : Nat) (md : List μ),
      getMetadataArray s' k' 8 (some "p") = md →
      (Reflector.properties s' k' (⟨ct, [], [⟨8, c10Result.2⟩]⟩ : ClassShape Nat Nat)).filter
        (fun it => it.name == "p")
        = if md.length > 0 then [Item.prop "p" md] else []) :=
  c10_property_interceptor_accessor 4 none (some fun g _ _ => g + 100) none 1 2 [0] 8 "p"
    c10Props Store.empty (some 0) rfl (by decide) (by decide) (by decide)

end Annotate
